import Mathlib

/-!
Shallow embedding of the curlhelper repository core: the curl-command parser
(src/parser.ts), the shared policy helpers (utils: calculateBackoff,
isRetryableStatus, cloneConfig) and the execution engine (executeRequest).
Definitions are translated from the TypeScript source; strings are modelled
as Lean strings (lists of characters), machine numbers as Nat or Rat, and
the asynchronous retry loop as a pure trace-producing function over an
abstract transport.
-/

/-! ### Parser: character-level helpers (src/parser.ts) -/

/-- The single-quote character (code 39), written by code point to keep the
source free of quote literals. -/
def squote : Char := Char.ofNat 39

/-- Whitespace class used by the JS regex `\s` restricted to the ASCII range
(space, tab, newline, carriage return, vertical tab, form feed); the Unicode
space classes never occur in the inputs considered here. -/
def isJsWs (c : Char) : Bool :=
  c = ' ' || c = '\t' || c = '\n' || c = '\r' || c = '\x0b' || c = '\x0c'

/-- Models the first replace of parseCurlCommand (parser.ts line 15): each
backslash-newline pair becomes a single space, scanning left to right. -/
def collapseCont : List Char → List Char
  | [] => []
  | '\\' :: '\n' :: rest => ' ' :: collapseCont rest
  | c :: rest => c :: collapseCont rest

/-- Models the whitespace-collapsing replace (parser.ts line 16): every
maximal run of whitespace becomes one space. The flag records whether the
previous character was part of a whitespace run already replaced. -/
def collapseWsAux : Bool → List Char → List Char
  | _, [] => []
  | inWs, c :: rest =>
    if isJsWs c then
      if inWs then collapseWsAux true rest
      else ' ' :: collapseWsAux true rest
    else c :: collapseWsAux false rest

/-- Models the trim call (parser.ts line 17): strip whitespace from both
ends. -/
def trimWsL (l : List Char) : List Char :=
  ((l.dropWhile isJsWs).reverse.dropWhile isJsWs).reverse

/-- Models the removal of the leading program name (parser.ts line 20):
drop a leading `curl` token when it is followed by at least one whitespace
character, together with that whitespace. -/
def stripCurl (l : List Char) : List Char :=
  match l with
  | 'c' :: 'u' :: 'r' :: 'l' :: rest =>
    match rest with
    | [] => l
    | c :: _ => if isJsWs c then rest.dropWhile isJsWs else l
  | _ => l

/-- The whitespace normalisation pipeline of parseCurlCommand
(parser.ts lines 14-17). -/
def normalizeChars (l : List Char) : List Char :=
  trimWsL (collapseWsAux false (collapseCont l))

/-! ### Parser: tokenizer (src/parser.ts lines 156-203) -/

/-- Direct translation of the character loop of `tokenize`: `q` is the
`inQuote` state, `esc` the `escaped` flag, `cur` the token accumulated so
far. An escaped character is taken literally; an unescaped backslash sets
the flag; a quote character opens, closes, or (other kind inside a quote)
is literal; an unquoted space ends the token, empty tokens are dropped. -/
def tokenizeAux : Option Char → Bool → List Char → List Char → List (List Char)
  | _, _, cur, [] => if cur = [] then [] else [cur]
  | q, esc, cur, c :: rest =>
    if esc then tokenizeAux q false (cur ++ [c]) rest
    else if c = '\\' then tokenizeAux q true cur rest
    else if c = '"' || c = squote then
      match q with
      | none => tokenizeAux (some c) false cur rest
      | some qc =>
        if qc = c then tokenizeAux none false cur rest
        else tokenizeAux q false (cur ++ [c]) rest
    else if c = ' ' && q = none then
      if cur = [] then tokenizeAux none false [] rest
      else cur :: tokenizeAux none false [] rest
    else tokenizeAux q false (cur ++ [c]) rest

/-- The exported tokenizer over strings. -/
def tokenize (s : String) : List String :=
  (tokenizeAux none false [] s.toList).map String.mk

/-! ### Parser: flag mapping (src/parser.ts lines 12-151) -/

/-- Models `String.prototype.split(sep)` for a one-character separator, as
used with the colon in the `-H` and `-u` flag handlers. -/
def splitCh (sep : Char) : List Char → List (List Char)
  | [] => [[]]
  | c :: rest =>
    let r := splitCh sep rest
    if c = sep then [] :: r
    else
      match r with
      | t :: ts => (c :: t) :: ts
      | [] => [[c]]

/-- Joins pieces with a separator character, modelling
`valueParts.join(sep)`. -/
def joinCh (sep : Char) : List (List Char) → List Char
  | [] => []
  | [x] => x
  | x :: xs => x ++ sep :: joinCh sep xs

/-- Prefix test over strings, modelling `str.startsWith(p)`. -/
def startsWithStr (p s : String) : Bool :=
  p.toList.isPrefixOf s.toList

/-- Models `isUrl` (parser.ts lines 208-210): the regex there accepts
exactly the prefixes `http://` and `https://`, plus a `www.` prefix. -/
def isUrl (s : String) : Bool :=
  startsWithStr "http://" s || startsWithStr "https://" s || startsWithStr "www." s

/-- ASCII upper-casing, modelling `nextToken.toUpperCase()`. -/
def toUpperStr (s : String) : String :=
  String.mk (s.toList.map Char.toUpper)

/-- The `{username, password}` record stored in the `auth` field of a parse
result (types.ts line 162). -/
structure AuthInfo where
  username : String
  password : String
deriving DecidableEq

/-- The `CurlParseResult` record (types.ts lines 157-163); headers are the
insertion-ordered entries of the JS object. -/
structure CurlParseResult where
  url : String
  method : String
  headers : List (String × String)
  body : Option String
  auth : Option AuthInfo
deriving DecidableEq

/-- JS object property assignment on the headers object: overwrite in place
when the key exists, append otherwise. -/
def setHeader (hs : List (String × String)) (k v : String) : List (String × String) :=
  if hs.any (fun p => p.1 = k) then hs.map (fun p => if p.1 = k then (k, v) else p)
  else hs ++ [(k, v)]

/-- Models the `-H` value handling (parser.ts lines 53-59):
`const [key, ...valueParts] = nextToken.split(sep)`, the value re-joined on
the separator and trimmed, and the assignment guarded by `key && value`
(both non-empty, the key trimmed only at assignment). -/
def splitHeaderToken (v : String) : Option (String × String) :=
  match splitCh ':' v.toList with
  | [] => none
  | key :: valueParts =>
    let value := trimWsL (joinCh ':' valueParts)
    if key ≠ [] ∧ value ≠ [] then
      some (String.mk (trimWsL key), String.mk value)
    else none

/-- Models the `-u` value handling (parser.ts lines 78-83):
`const [username, password] = nextToken.split(sep)` destructures only the
first two segments; the record is stored only when both are non-empty. -/
def parseUser (v : String) : Option AuthInfo :=
  match splitCh ':' v.toList with
  | u :: p :: _ =>
    if u ≠ [] ∧ p ≠ [] then some ⟨String.mk u, String.mk p⟩ else none
  | _ => none

/-- The initial `result` record of parseCurlCommand (parser.ts lines 22-26). -/
def initParse : CurlParseResult :=
  { url := "", method := "GET", headers := [], body := none, auth := none }

/-- The token loop of parseCurlCommand (parser.ts lines 31-148). Each
value-consuming flag reads the next token when it is present and truthy
(non-empty) and then skips it; boolean flags and unknown flags consume
nothing; the first URL-looking non-flag token becomes the url. -/
def parseLoop : CurlParseResult → List String → CurlParseResult
  | res, [] => res
  | res, tok :: rest =>
    if tok = "" then parseLoop res rest
    else if startsWithStr "-" tok then
      if tok = "-X" ∨ tok = "--request" then
        match rest with
        | [] => res
        | v :: rest2 =>
          -- a falsy (empty) next token is not consumed; the loop then skips
          -- it at the top of the next iteration, continuing at rest2
          if v = "" then parseLoop res rest2
          else parseLoop { res with method := toUpperStr v } rest2
      else if tok = "-H" ∨ tok = "--header" then
        match rest with
        | [] => res
        | v :: rest2 =>
          -- a falsy (empty) next token is not consumed; the loop then skips
          -- it at the top of the next iteration, continuing at rest2
          if v = "" then parseLoop res rest2
          else
            match splitHeaderToken v with
            | some kv => parseLoop { res with headers := setHeader res.headers kv.1 kv.2 } rest2
            | none => parseLoop res rest2
      else if tok = "-d" ∨ tok = "--data" ∨ tok = "--data-raw" ∨ tok = "--data-binary" then
        match rest with
        | [] => res
        | v :: rest2 =>
          -- a falsy (empty) next token is not consumed; the loop then skips
          -- it at the top of the next iteration, continuing at rest2
          if v = "" then parseLoop res rest2
          else
            parseLoop { res with
              body := some v,
              method := if res.method = "" ∨ res.method = "GET" then "POST" else res.method } rest2
      else if tok = "-u" ∨ tok = "--user" then
        match rest with
        | [] => res
        | v :: rest2 =>
          -- a falsy (empty) next token is not consumed; the loop then skips
          -- it at the top of the next iteration, continuing at rest2
          if v = "" then parseLoop res rest2
          else
            match parseUser v with
            | some a => parseLoop { res with auth := some a } rest2
            | none => parseLoop res rest2
      else if tok = "--url" then
        match rest with
        | [] => res
        | v :: rest2 =>
          -- a falsy (empty) next token is not consumed; the loop then skips
          -- it at the top of the next iteration, continuing at rest2
          if v = "" then parseLoop res rest2
          else parseLoop { res with url := v } rest2
      else if tok = "-A" ∨ tok = "--user-agent" then
        match rest with
        | [] => res
        | v :: rest2 =>
          -- a falsy (empty) next token is not consumed; the loop then skips
          -- it at the top of the next iteration, continuing at rest2
          if v = "" then parseLoop res rest2
          else parseLoop { res with headers := setHeader res.headers "User-Agent" v } rest2
      else if tok = "-e" ∨ tok = "--referer" then
        match rest with
        | [] => res
        | v :: rest2 =>
          -- a falsy (empty) next token is not consumed; the loop then skips
          -- it at the top of the next iteration, continuing at rest2
          if v = "" then parseLoop res rest2
          else parseLoop { res with headers := setHeader res.headers "Referer" v } rest2
      else if tok = "-b" ∨ tok = "--cookie" then
        match rest with
        | [] => res
        | v :: rest2 =>
          -- a falsy (empty) next token is not consumed; the loop then skips
          -- it at the top of the next iteration, continuing at rest2
          if v = "" then parseLoop res rest2
          else parseLoop { res with headers := setHeader res.headers "Cookie" v } rest2
      else if tok = "--compressed" then
        parseLoop { res with headers := setHeader res.headers "Accept-Encoding" "gzip, deflate, br" } rest
      else
        parseLoop res rest
    else
      if res.url = "" ∧ isUrl tok then parseLoop { res with url := tok } rest
      else parseLoop res rest

/-- The token list parseCurlCommand works over: the input normalised, the
leading program name stripped, then tokenized. -/
def cmdTokens (s : String) : List String :=
  tokenize (String.mk (stripCurl (normalizeChars s.toList)))

/-- Models `parseCurlCommand` (parser.ts lines 12-151), the function also
exported as `parse`. -/
def parseCurlCommand (s : String) : CurlParseResult :=
  parseLoop initParse (cmdTokens s)

/-! ### Shared policy helpers (utils, unnamed part: calculateBackoff,
isRetryableStatus) -/

/-- The `backoff` strategy field of `RetryOptions` (types.ts line 48). -/
inductive BackoffStrategy
  | linear
  | exponential
deriving DecidableEq

/-- Models `calculateBackoff` (utils lines 204-223) over exact rationals.
The JS call `Math.random()` is modelled by the parameter `rand`, ranging
over `[0, 1)`. Linear: `delay = baseDelay * attempt`; exponential:
`delay = min(baseDelay * 2 ^ (attempt - 1), maxDelay)` followed by
`delay += delay * 0.25 * (rand - 0.5)`; the result is
`min(max(delay, 0), maxDelay)`. -/
def calculateBackoff (attempt : ℕ) (strategy : BackoffStrategy)
    (baseDelay maxDelay rand : ℚ) : ℚ :=
  let delay : ℚ :=
    match strategy with
    | .linear => baseDelay * attempt
    | .exponential =>
      let d := min (baseDelay * 2 ^ (attempt - 1)) maxDelay
      d + d * (1/4) * (rand - 1/2)
  min (max delay 0) maxDelay

/-- The default parameter value of `retryableCodes` in `isRetryableStatus`
(utils line 228), which is also the documented default of
`RetryOptions.statusCodes` (types.ts line 53). -/
def defaultRetryStatusCodes : List ℕ := [408, 429, 500, 502, 503, 504]

/-- Models `isRetryableStatus` (utils lines 228-230):
`retryableCodes.includes(status)`. -/
def isRetryableStatus (status : ℕ) (retryableCodes : List ℕ) : Bool :=
  retryableCodes.contains status

/-! ### Execution engine (executeRequest, unnamed part lines 302-369)

The engine is embedded as a pure function over an abstract transport
`ℕ → Except Err Resp` giving the outcome of `performRequest` on each
attempt number: `Except.error` is a rejection of the awaited attempt
(network failure, the `Request timeout after Nms` rejection of
`createTimeout`, or its `Request aborted` rejection when the external
cancellation signal fires first — to `executeRequest` these are all just
values caught by its `catch` block), and `Except.ok` is a structurally
successful response. Besides the result, the embedding returns the
ordered trace of observable engine events: each transport attempt, each
`calculateBackoff` call, each `onRetry` callback invocation, and each
`sleep`. -/

/-- Error values flowing through the engine. `cancelled` is the
`Request aborted` rejection raised by `createTimeout` when the external
signal fires; `timedOut` its timeout rejection; `net` an arbitrary
transport failure; `http s` the synthesized `new Error` carrying
`HTTP <status>` built for a retryable status; `intercept` an exception
raised inside an interceptor; `exhausted` the fallback
`Request failed after retries` error of line 368. -/
inductive Err
  | cancelled
  | timedOut
  | net (n : ℕ)
  | http (status : ℕ)
  | intercept (n : ℕ)
  | exhausted
deriving DecidableEq

/-- The part of `CurlResponse` the engine inspects: the HTTP status, plus a
tag identifying which concrete response object this is. -/
structure Resp where
  status : ℕ
  tag : ℕ
deriving DecidableEq

/-- Observable engine events, in program order. -/
inductive Ev
  | attempt (n : ℕ)
  | backoff (n : ℕ)
  | onRetry (n : ℕ) (e : Err)
  | slept (n : ℕ)
deriving DecidableEq

/-- The `RetryOptions` fields the engine control flow reads (types.ts lines
44-57): the attempt budget, the optional retryable-status list, and whether
an `onRetry` callback is configured. The backoff shape fields only feed
`calculateBackoff`, whose numeric output the trace does not record. -/
structure RetryOpts where
  count : ℕ
  statusCodes : Option (List ℕ)
  hasOnRetry : Bool
deriving DecidableEq

/-- The request-config fields relevant to the engine loop. -/
structure EConfig where
  retry : Option RetryOpts
deriving DecidableEq

/-- Runs the response-interceptor chain (unnamed part lines 338-341): each
handler is awaited in order; a raised exception aborts the chain. -/
def runRespInts : List (Resp → Except Err Resp) → Resp → Except Err Resp
  | [], r => Except.ok r
  | f :: fs, r =>
    match f r with
    | Except.ok r2 => runRespInts fs r2
    | Except.error e => Except.error e

/-- Runs the request-interceptor chain (unnamed part lines 305-307). -/
def runReqInts : List (EConfig → Except Err EConfig) → EConfig → Except Err EConfig
  | [], c => Except.ok c
  | f :: fs, c =>
    match f c with
    | Except.ok c2 => runReqInts fs c2
    | Except.error e => Except.error e

/-- The status-retry test of line 321: `retryConfig.statusCodes &&
isRetryableStatus(response.status, retryConfig.statusCodes)`. An absent
list (undefined) is falsy and short-circuits; a present list (even the
truthy empty array) is consulted via `isRetryableStatus`. -/
def statusRetry (rc : RetryOpts) (status : ℕ) : Bool :=
  match rc.statusCodes with
  | some codes => isRetryableStatus status codes
  | none => false

/-- The events of one retry pause (lines 322-333 and 352-364): the
`calculateBackoff` call, the guarded `onRetry` callback, and the sleep. -/
def retryEvs (rc : RetryOpts) (n : ℕ) (e : Err) : List Ev :=
  Ev.backoff n :: (if rc.hasOnRetry then [Ev.onRetry n e] else []) ++ [Ev.slept n]

/-- The attempt loop of `executeRequest` (lines 316-368). `fuel` counts the
loop iterations still permitted (`maxAttempts - attempt + 1` at entry), `n`
is the current attempt number, `lastError` the `lastError` variable. On a
successful transport outcome the status-retry test runs first (line 321,
with `continue` not touching `lastError`); otherwise the response
interceptors run inside the same `try`, so an interceptor exception falls
into the `catch` (lines 344-365), which rethrows at the final attempt and
otherwise pauses and continues. When the loop exits without returning,
line 368 throws `lastError` or the fallback error. -/
def retryLoop (transport : ℕ → Except Err Resp)
    (respInts : List (Resp → Except Err Resp)) (rc : RetryOpts)
    (maxAttempts : ℕ) : ℕ → ℕ → Option Err → Except Err Resp × List Ev
  | 0, _, lastError => (Except.error (lastError.getD Err.exhausted), [])
  | fuel + 1, n, lastError =>
    match transport n with
    | Except.ok response =>
      if n < maxAttempts ∧ statusRetry rc response.status then
        let rec2 := retryLoop transport respInts rc maxAttempts fuel (n + 1) lastError
        (rec2.1, Ev.attempt n :: retryEvs rc n (Err.http response.status) ++ rec2.2)
      else
        match runRespInts respInts response with
        | Except.ok processed => (Except.ok processed, [Ev.attempt n])
        | Except.error e =>
          if maxAttempts ≤ n then (Except.error e, [Ev.attempt n])
          else
            let rec2 := retryLoop transport respInts rc maxAttempts fuel (n + 1) (some e)
            (rec2.1, Ev.attempt n :: retryEvs rc n e ++ rec2.2)
    | Except.error e =>
      if maxAttempts ≤ n then (Except.error e, [Ev.attempt n])
      else
        let rec2 := retryLoop transport respInts rc maxAttempts fuel (n + 1) (some e)
        (rec2.1, Ev.attempt n :: retryEvs rc n e ++ rec2.2)

/-- Models `executeRequest` (unnamed part lines 302-369): clone the config
(the pure model needs no heap; aliasing is studied separately below), run
the request interceptors — whose exception propagates before any attempt —
then read `processedConfig.retry || { count: 0 }`, set
`maxAttempts = retryConfig.count + 1`, and run the attempt loop from
attempt 1. -/
def executeRequest (transport : ℕ → Except Err Resp)
    (reqInts : List (EConfig → Except Err EConfig))
    (respInts : List (Resp → Except Err Resp))
    (config : EConfig) : Except Err Resp × List Ev :=
  match runReqInts reqInts config with
  | Except.error e => (Except.error e, [])
  | Except.ok processed =>
    let rc := processed.retry.getD ⟨0, none, false⟩
    retryLoop transport respInts rc (rc.count + 1) (rc.count + 1) 1 none

/-- Number of transport attempts recorded in a trace. -/
def attemptsOf (evs : List Ev) : ℕ :=
  evs.countP fun e =>
    match e with
    | Ev.attempt _ => true
    | _ => false

/-! ### Heap model for config cloning (utils `cloneConfig`, lines 283-290,
and the interceptor phase of `executeRequest`, lines 302-307)

The pure engine model above cannot express reference sharing, so the
cloning claim is settled over a small heap: `Headers` objects live in a
store indexed by references, a config carries the reference of its headers
object, and a request interceptor is modelled by the mutation it performs
on the headers object it receives. -/

/-- Entries of one `Headers` object. -/
abbrev HeaderMap := List (String × String)

/-- A heap of `Headers` objects: `mem` maps references to contents, `next`
is the next fresh reference (every allocated reference is below it). -/
structure Store where
  mem : ℕ → HeaderMap
  next : ℕ

/-- The config fields relevant to aliasing: the reference of its headers
object. -/
structure HeapConfig where
  headersRef : ℕ

/-- Allocation of a fresh `Headers` object copying the contents of `src`,
modelling `new Headers(config.headers)`. -/
def allocCopy (σ : Store) (src : ℕ) : Store × ℕ :=
  (⟨fun r => if r = σ.next then σ.mem src else σ.mem r, σ.next + 1⟩, σ.next)

/-- Models `cloneConfig` (utils lines 283-290): the spread copies the scalar
fields while `headers: new Headers(config.headers)` makes the clone point at
a freshly allocated copy of the headers object. -/
def cloneConfigH (σ : Store) (c : HeapConfig) : Store × HeapConfig :=
  let a := allocCopy σ c.headersRef
  (a.1, ⟨a.2⟩)

/-- One in-place write to the headers object at reference `r`. -/
def writeHeaders (σ : Store) (r : ℕ) (h : HeaderMap) : Store :=
  ⟨fun x => if x = r then h else σ.mem x, σ.next⟩

/-- Runs the request-interceptor chain over the headers object of config
`c`: each interceptor mutates the headers object it receives (unnamed part
lines 305-307, with handlers that write through the config they are
passed). -/
def runReqInterceptorsH (fs : List (HeaderMap → HeaderMap)) (σ : Store)
    (c : HeapConfig) : Store :=
  fs.foldl (fun s f => writeHeaders s c.headersRef (f (s.mem c.headersRef))) σ

/-- The interceptor phase of `executeRequest` (lines 302-307): clone the
caller config, then run the request interceptors over the clone. Returns
the final store and the clone the engine keeps using; no later part of
`executeRequest` or `performRequest` ever writes a headers object. -/
def interceptPhaseH (fs : List (HeaderMap → HeaderMap)) (σ : Store)
    (caller : HeapConfig) : Store × HeapConfig :=
  let cl := cloneConfigH σ caller
  (runReqInterceptorsH fs cl.1 cl.2, cl.2)

/-! ### Helper lemmas about the engine loop -/

/-- One-step unfolding of the attempt loop, with the lets inlined. -/
lemma retryLoop_succ (T : ℕ → Except Err Resp) (ri : List (Resp → Except Err Resp))
    (rc : RetryOpts) (M fuel n : ℕ) (last : Option Err) :
    retryLoop T ri rc M (fuel + 1) n last =
      match T n with
      | Except.ok response =>
        if n < M ∧ statusRetry rc response.status then
          ((retryLoop T ri rc M fuel (n + 1) last).1,
            Ev.attempt n :: retryEvs rc n (Err.http response.status) ++
              (retryLoop T ri rc M fuel (n + 1) last).2)
        else
          match runRespInts ri response with
          | Except.ok processed => (Except.ok processed, [Ev.attempt n])
          | Except.error e =>
            if M ≤ n then (Except.error e, [Ev.attempt n])
            else
              ((retryLoop T ri rc M fuel (n + 1) (some e)).1,
                Ev.attempt n :: retryEvs rc n e ++
                  (retryLoop T ri rc M fuel (n + 1) (some e)).2)
      | Except.error e =>
        if M ≤ n then (Except.error e, [Ev.attempt n])
        else
          ((retryLoop T ri rc M fuel (n + 1) (some e)).1,
            Ev.attempt n :: retryEvs rc n e ++
              (retryLoop T ri rc M fuel (n + 1) (some e)).2) := rfl

/-- A retry pause records no transport attempt. -/
lemma attemptsOf_retryEvs (rc : RetryOpts) (n : ℕ) (e : Err) :
    attemptsOf (retryEvs rc n e) = 0 := by
  cases h : rc.hasOnRetry <;> simp [attemptsOf, retryEvs, h]

/-- Counting attempts across the trace shape produced by one retrying
iteration of the loop. -/
lemma attemptsOf_step (rc : RetryOpts) (n : ℕ) (e : Err) (t : List Ev) :
    attemptsOf (Ev.attempt n :: retryEvs rc n e ++ t) = attemptsOf t + 1 := by
  cases h : rc.hasOnRetry <;>
    simp [attemptsOf, retryEvs, h, List.countP_cons, List.countP_append]

/-- With a transport that rejects on every attempt, the loop consumes all
its fuel, performs one attempt per unit of fuel, and finally rethrows the
error of the last attempt. -/
lemma retryLoop_allFail (T : ℕ → Except Err Resp) (errOf : ℕ → Err)
    (hT : ∀ k, T k = Except.error (errOf k))
    (ri : List (Resp → Except Err Resp)) (rc : RetryOpts) (M : ℕ) :
    ∀ fuel n last, M = n + fuel →
      (retryLoop T ri rc M (fuel + 1) n last).1 = Except.error (errOf M) ∧
      attemptsOf (retryLoop T ri rc M (fuel + 1) n last).2 = fuel + 1 := by
  intro fuel
  induction fuel with
  | zero =>
    intro n last hM
    have hle : M ≤ n := by omega
    have hMe : errOf M = errOf n := by rw [show M = n from by omega]
    rw [retryLoop_succ, hT n]
    simp [hle, hMe, attemptsOf]
  | succ fuel ih =>
    intro n last hM
    have hlt : ¬ M ≤ n := by omega
    have hrec := ih (n + 1) (some (errOf n)) (by omega)
    rw [retryLoop_succ, hT n]
    simp only [hlt, if_false]
    exact ⟨hrec.1, by rw [attemptsOf_step]; omega⟩

/-- With the status-retry test succeeding on every attempt but the last
(and no interceptor failure), the loop consumes all its fuel and finally
returns the last attempt response itself. The hypothesis `hS` states that
every transport outcome is a response whose status passes the configured
retryable-status test. -/
lemma retryLoop_allRetryableStatus (T : ℕ → Except Err Resp) (respF : ℕ → Resp)
    (rc : RetryOpts) (M : ℕ)
    (hT : ∀ k, T k = Except.ok (respF k))
    (hS : ∀ k, statusRetry rc (respF k).status = true) :
    ∀ fuel n last, M = n + fuel →
      (retryLoop T [] rc M (fuel + 1) n last).1 = Except.ok (respF M) ∧
      attemptsOf (retryLoop T [] rc M (fuel + 1) n last).2 = fuel + 1 := by
  intro fuel
  induction fuel with
  | zero =>
    intro n last hM
    have hlt : ¬ n < M := by omega
    have hMe : respF M = respF n := by rw [show M = n from by omega]
    rw [retryLoop_succ, hT n]
    simp [hlt, hMe, attemptsOf, runRespInts]
  | succ fuel ih =>
    intro n last hM
    have hlt : n < M := by omega
    have hrec := ih (n + 1) last (by omega)
    rw [retryLoop_succ, hT n]
    simp only [hlt, hS n, true_and, if_true]
    exact ⟨hrec.1, by rw [attemptsOf_step]; omega⟩

/-- When every transport attempt yields a response that does not trip the
status-retry test, but the response-interceptor chain raises on every
response, the interceptor error is caught by the retry handler: the loop
consumes all its fuel, one transport attempt per unit, and finally rethrows
the interceptor error. -/
lemma retryLoop_intsAlwaysFail (T : ℕ → Except Err Resp) (respF : ℕ → Resp)
    (ri : List (Resp → Except Err Resp)) (rc : RetryOpts) (e : Err) (M : ℕ)
    (hT : ∀ k, T k = Except.ok (respF k))
    (hS : ∀ k, statusRetry rc (respF k).status = false)
    (hI : ∀ k, runRespInts ri (respF k) = Except.error e) :
    ∀ fuel n last, M = n + fuel →
      (retryLoop T ri rc M (fuel + 1) n last).1 = Except.error e ∧
      attemptsOf (retryLoop T ri rc M (fuel + 1) n last).2 = fuel + 1 := by
  intro fuel
  induction fuel with
  | zero =>
    intro n last hM
    have hle : M ≤ n := by omega
    rw [retryLoop_succ, hT n]
    simp [hS n, hI n, hle, attemptsOf]
  | succ fuel ih =>
    intro n last hM
    have hle : ¬ M ≤ n := by omega
    have hrec := ih (n + 1) (some e) (by omega)
    rw [retryLoop_succ, hT n]
    simp only [hS n, Bool.false_eq_true, and_false, if_false, hI n, hle]
    exact ⟨hrec.1, by rw [attemptsOf_step]; omega⟩

/-- Whatever the transport does, an iteration of the loop with fuel left
records its transport attempt as the first trace event. -/
lemma retryLoop_attempt_head (T : ℕ → Except Err Resp)
    (ri : List (Resp → Except Err Resp)) (rc : RetryOpts)
    (M fuel n : ℕ) (last : Option Err) :
    ∃ tl, (retryLoop T ri rc M (fuel + 1) n last).2 = Ev.attempt n :: tl := by
  rw [retryLoop_succ]
  cases hT : T n with
  | ok response =>
    by_cases hcond : n < M ∧ statusRetry rc response.status
    · exact ⟨retryEvs rc n (Err.http response.status) ++
        (retryLoop T ri rc M fuel (n + 1) last).2, by simp [hcond]⟩
    · cases hri : runRespInts ri response with
      | ok p => exact ⟨[], by simp [hcond, hri]⟩
      | error e =>
        by_cases hle : M ≤ n
        · exact ⟨[], by simp [hcond, hri, hle]⟩
        · exact ⟨retryEvs rc n e ++ (retryLoop T ri rc M fuel (n + 1) (some e)).2,
            by simp [hcond, hri, hle]⟩
  | error e =>
    by_cases hle : M ≤ n
    · exact ⟨[], by simp [hle]⟩
    · exact ⟨retryEvs rc n e ++ (retryLoop T ri rc M fuel (n + 1) (some e)).2,
        by simp [hle]⟩

/-- With an empty request-interceptor registry, `executeRequest` reads the
retry options from the config and enters the loop at attempt 1. -/
lemma executeRequest_mk (T : ℕ → Except Err Resp)
    (respInts : List (Resp → Except Err Resp)) (c : ℕ)
    (sc : Option (List ℕ)) (hb : Bool) :
    executeRequest T [] respInts ⟨some ⟨c, sc, hb⟩⟩ =
      retryLoop T respInts ⟨c, sc, hb⟩ (c + 1) (c + 1) 1 none := rfl

/-- With no retry options configured, `executeRequest` falls back to
`{ count: 0 }` and allows exactly one attempt. -/
lemma executeRequest_noRetry (T : ℕ → Except Err Resp)
    (respInts : List (Resp → Except Err Resp)) :
    executeRequest T [] respInts ⟨none⟩ =
      retryLoop T respInts ⟨0, none, false⟩ 1 1 1 none := rfl

/-- C5: with `retryPolicy.count = c` and a transport failing on every
attempt, `executeRequest` performs exactly `c + 1` transport attempts and
rethrows, unwrapped, exactly the error produced by the last attempt; with
no retry policy configured (default count 0) there is exactly one attempt
whose error propagates. -/
theorem retry_exhaustion_last_error (c : ℕ) (errOf : ℕ → Err)
    (sc : Option (List ℕ)) (hb : Bool) (respInts : List (Resp → Except Err Resp)) :
    (executeRequest (fun k => Except.error (errOf k)) [] respInts ⟨some ⟨c, sc, hb⟩⟩).1
        = Except.error (errOf (c + 1)) ∧
    attemptsOf
        (executeRequest (fun k => Except.error (errOf k)) [] respInts ⟨some ⟨c, sc, hb⟩⟩).2
        = c + 1 ∧
    (executeRequest (fun k => Except.error (errOf k)) [] respInts ⟨none⟩).1
        = Except.error (errOf 1) ∧
    attemptsOf (executeRequest (fun k => Except.error (errOf k)) [] respInts ⟨none⟩).2
        = 1 := by
  have h1 := retryLoop_allFail (fun k => Except.error (errOf k)) errOf (fun k => rfl)
    respInts ⟨c, sc, hb⟩ (c + 1) c 1 none (by omega)
  have h2 := retryLoop_allFail (fun k => Except.error (errOf k)) errOf (fun k => rfl)
    respInts ⟨0, none, false⟩ 1 0 1 none (by omega)
  rw [executeRequest_mk, executeRequest_noRetry]
  exact ⟨h1.1, h1.2, h2.1, h2.2⟩

/-- C6: with `retryableStatusCodes = [503]` and a transport answering 503,
503, then 200, a budget of `count ≥ 2` converges: the call returns the 200
response after exactly 3 attempts, firing `onRetry` with the synthesized
`HTTP 503` error before each retry; and when the retryable status occurs on
every attempt including the last, the final 503 response itself is returned
(never converted into a thrown error) after exhausting all `count + 1`
attempts. -/
theorem retryable_status_convergence (c : ℕ) (hc : 2 ≤ c) :
    (executeRequest (fun n => if n ≤ 2 then Except.ok ⟨503, n⟩ else Except.ok ⟨200, n⟩)
        [] [] ⟨some ⟨c, some [503], true⟩⟩).1 = Except.ok ⟨200, 3⟩ ∧
    attemptsOf (executeRequest
        (fun n => if n ≤ 2 then Except.ok ⟨503, n⟩ else Except.ok ⟨200, n⟩)
        [] [] ⟨some ⟨c, some [503], true⟩⟩).2 = 3 ∧
    Ev.onRetry 1 (Err.http 503) ∈ (executeRequest
        (fun n => if n ≤ 2 then Except.ok ⟨503, n⟩ else Except.ok ⟨200, n⟩)
        [] [] ⟨some ⟨c, some [503], true⟩⟩).2 ∧
    Ev.onRetry 2 (Err.http 503) ∈ (executeRequest
        (fun n => if n ≤ 2 then Except.ok ⟨503, n⟩ else Except.ok ⟨200, n⟩)
        [] [] ⟨some ⟨c, some [503], true⟩⟩).2 ∧
    (∀ c2 : ℕ,
      (executeRequest (fun n => Except.ok ⟨503, n⟩) [] [] ⟨some ⟨c2, some [503], true⟩⟩).1
          = Except.ok ⟨503, c2 + 1⟩ ∧
      attemptsOf
          (executeRequest (fun n => Except.ok ⟨503, n⟩) [] [] ⟨some ⟨c2, some [503], true⟩⟩).2
          = c2 + 1) := by
  obtain ⟨k, rfl⟩ : ∃ k, c = k + 2 := ⟨c - 2, by omega⟩
  have h1 : (1 : ℕ) < k + 2 + 1 := by omega
  have h2 : (2 : ℕ) < k + 2 + 1 := by omega
  refine ⟨?_, ?_, ?_, ?_, ?_⟩
  · rw [executeRequest_mk]
    norm_num [retryLoop_succ, statusRetry, isRetryableStatus, runRespInts, h1, h2]
  · rw [executeRequest_mk]
    norm_num [retryLoop_succ, statusRetry, isRetryableStatus, runRespInts, retryEvs,
      attemptsOf, h1, h2]
  · rw [executeRequest_mk]
    norm_num [retryLoop_succ, statusRetry, isRetryableStatus, runRespInts, retryEvs, h1, h2]
  · rw [executeRequest_mk]
    norm_num [retryLoop_succ, statusRetry, isRetryableStatus, runRespInts, retryEvs, h1, h2]
  · intro c2
    have h := retryLoop_allRetryableStatus (fun n => Except.ok ⟨503, n⟩)
      (fun n => ⟨503, n⟩) ⟨c2, some [503], true⟩ (c2 + 1) (fun k => rfl) (fun k => rfl)
      c2 1 none (by omega)
    rw [executeRequest_mk]
    exact h

/-- C6 witness at the smallest permitted budget. -/
theorem retryable_status_convergence_witness :
    (2 : ℕ) ≤ 2 ∧
    ((executeRequest (fun n => if n ≤ 2 then Except.ok ⟨503, n⟩ else Except.ok ⟨200, n⟩)
        [] [] ⟨some ⟨2, some [503], true⟩⟩).1 = Except.ok ⟨200, 3⟩ ∧
      attemptsOf (executeRequest
          (fun n => if n ≤ 2 then Except.ok ⟨503, n⟩ else Except.ok ⟨200, n⟩)
          [] [] ⟨some ⟨2, some [503], true⟩⟩).2 = 3 ∧
      Ev.onRetry 1 (Err.http 503) ∈ (executeRequest
          (fun n => if n ≤ 2 then Except.ok ⟨503, n⟩ else Except.ok ⟨200, n⟩)
          [] [] ⟨some ⟨2, some [503], true⟩⟩).2 ∧
      Ev.onRetry 2 (Err.http 503) ∈ (executeRequest
          (fun n => if n ≤ 2 then Except.ok ⟨503, n⟩ else Except.ok ⟨200, n⟩)
          [] [] ⟨some ⟨2, some [503], true⟩⟩).2 ∧
      (∀ c2 : ℕ,
        (executeRequest (fun n => Except.ok ⟨503, n⟩) [] [] ⟨some ⟨c2, some [503], true⟩⟩).1
            = Except.ok ⟨503, c2 + 1⟩ ∧
        attemptsOf (executeRequest (fun n => Except.ok ⟨503, n⟩) [] []
            ⟨some ⟨c2, some [503], true⟩⟩).2 = c2 + 1)) :=
  ⟨le_refl 2, retryable_status_convergence 2 (le_refl 2)⟩

/-- C10: when `retry.statusCodes` is not set, a structurally successful
transport response is always final — whatever its status, even with
`retry.count > 0` — and is returned (through the response interceptors)
after exactly one attempt; the default list declared next to the
`RetryOptions` type, which does mark 503 retryable, is never consulted by
the engine. -/
theorem no_status_retry_without_statusCodes (c : ℕ) (hb : Bool) (resp r2 : Resp)
    (respInts : List (Resp → Except Err Resp)) (T : ℕ → Except Err Resp)
    (hT : T 1 = Except.ok resp) (hI : runRespInts respInts resp = Except.ok r2) :
    executeRequest T [] respInts ⟨some ⟨c, none, hb⟩⟩ = (Except.ok r2, [Ev.attempt 1]) ∧
    attemptsOf (executeRequest T [] respInts ⟨some ⟨c, none, hb⟩⟩).2 = 1 ∧
    isRetryableStatus 503 defaultRetryStatusCodes = true := by
  have key : executeRequest T [] respInts ⟨some ⟨c, none, hb⟩⟩
      = (Except.ok r2, [Ev.attempt 1]) := by
    rw [executeRequest_mk, retryLoop_succ, hT]
    simp [statusRetry, hI]
  exact ⟨key, by rw [key]; simp [attemptsOf], by decide⟩

/-- C10 witness: a 503 response, with two retries configured, is final. -/
theorem no_status_retry_witness :
    executeRequest (fun _ => Except.ok ⟨503, 0⟩) [] [] ⟨some ⟨2, none, true⟩⟩
        = (Except.ok ⟨503, 0⟩, [Ev.attempt 1]) ∧
    attemptsOf (executeRequest (fun _ => Except.ok ⟨503, 0⟩) [] []
        ⟨some ⟨2, none, true⟩⟩).2 = 1 ∧
    isRetryableStatus 503 defaultRetryStatusCodes = true :=
  no_status_retry_without_statusCodes 2 true ⟨503, 0⟩ ⟨503, 0⟩ []
    (fun _ => Except.ok ⟨503, 0⟩) rfl rfl

/-- C1 counterexample: a response interceptor that always throws, with one
retry remaining, does NOT abort the call immediately — the engine performs
a second transport attempt and fires `onRetry` with the interceptor error,
contradicting the claim that an interceptor exception is never retried. -/
theorem respInterceptorError_triggers_second_attempt_cex :
    (executeRequest (fun n => Except.ok ⟨200, n⟩) []
        [fun _ => Except.error (Err.intercept 0)] ⟨some ⟨1, none, true⟩⟩).1
      = Except.error (Err.intercept 0) ∧
    attemptsOf (executeRequest (fun n => Except.ok ⟨200, n⟩) []
        [fun _ => Except.error (Err.intercept 0)] ⟨some ⟨1, none, true⟩⟩).2 = 2 ∧
    Ev.onRetry 1 (Err.intercept 0) ∈ (executeRequest (fun n => Except.ok ⟨200, n⟩) []
        [fun _ => Except.error (Err.intercept 0)] ⟨some ⟨1, none, true⟩⟩).2 ∧
    Ev.slept 1 ∈ (executeRequest (fun n => Except.ok ⟨200, n⟩) []
        [fun _ => Except.error (Err.intercept 0)] ⟨some ⟨1, none, true⟩⟩).2 := by
  refine ⟨rfl, rfl, ?_, ?_⟩ <;> decide

/-- C1 as amended: an exception raised in a response interceptor is caught
by the retry handler of the attempt loop; while attempts remain the engine
backs off, fires `onRetry` with the interceptor error, sleeps and performs
another full transport attempt, so with a persistently throwing interceptor
chain the call performs all `count + 1` transport attempts and only then
propagates the interceptor error as the terminal failure. -/
theorem respInterceptorError_retried_until_exhaustion (c : ℕ) (e : Err)
    (respF : ℕ → Resp) (hb : Bool)
    (hS : ∀ k, statusRetry ⟨c, none, hb⟩ (respF k).status = false)
    (ri : List (Resp → Except Err Resp))
    (hI : ∀ k, runRespInts ri (respF k) = Except.error e) :
    (executeRequest (fun k => Except.ok (respF k)) [] ri ⟨some ⟨c, none, hb⟩⟩).1
        = Except.error e ∧
    attemptsOf (executeRequest (fun k => Except.ok (respF k)) [] ri
        ⟨some ⟨c, none, hb⟩⟩).2 = c + 1 ∧
    (1 ≤ c → hb = true →
      Ev.onRetry 1 e ∈ (executeRequest (fun k => Except.ok (respF k)) [] ri
          ⟨some ⟨c, none, hb⟩⟩).2) := by
  have h := retryLoop_intsAlwaysFail (fun k => Except.ok (respF k)) respF ri
    ⟨c, none, hb⟩ e (c + 1) (fun k => rfl) hS hI c 1 none (by omega)
  rw [executeRequest_mk]
  refine ⟨h.1, h.2, ?_⟩
  intro hc hhb
  subst hhb
  obtain ⟨k, rfl⟩ : ∃ k, c = k + 1 := ⟨c - 1, by omega⟩
  rw [retryLoop_succ]
  have hle : ¬ (k + 1 + 1 ≤ 1) := by omega
  simp [hS 1, hI 1, hle, retryEvs]

/-- C1 witness: a concrete always-throwing interceptor with one retry. -/
theorem respInterceptorError_retried_witness :
    (executeRequest (fun k => Except.ok ⟨200, k⟩) []
        [fun _ => Except.error (Err.intercept 3)] ⟨some ⟨1, none, true⟩⟩).1
        = Except.error (Err.intercept 3) ∧
    attemptsOf (executeRequest (fun k => Except.ok ⟨200, k⟩) []
        [fun _ => Except.error (Err.intercept 3)] ⟨some ⟨1, none, true⟩⟩).2 = 2 ∧
    ((1 : ℕ) ≤ 1 → true = true →
      Ev.onRetry 1 (Err.intercept 3) ∈ (executeRequest (fun k => Except.ok ⟨200, k⟩) []
          [fun _ => Except.error (Err.intercept 3)] ⟨some ⟨1, none, true⟩⟩).2) :=
  respInterceptorError_retried_until_exhaustion 1 (Err.intercept 3)
    (fun k => ⟨200, k⟩) true (fun _ => rfl) [fun _ => Except.error (Err.intercept 3)]
    (fun _ => rfl)

/-- C2 counterexample: the transport rejects the first awaited attempt with
the cancellation error (the `Request aborted` rejection), one retry
remains — and the engine retries anyway: it fires `onRetry` with the
cancellation error, sleeps, starts a second attempt, and the call even
SUCCEEDS, contradicting the claim that it rejects with the cancellation
error and starts no further attempt. -/
theorem cancellation_retried_cex :
    (executeRequest
        (fun n => if n = 1 then Except.error Err.cancelled else Except.ok ⟨200, n⟩)
        [] [] ⟨some ⟨1, none, true⟩⟩).1 = Except.ok ⟨200, 2⟩ ∧
    attemptsOf (executeRequest
        (fun n => if n = 1 then Except.error Err.cancelled else Except.ok ⟨200, n⟩)
        [] [] ⟨some ⟨1, none, true⟩⟩).2 = 2 ∧
    Ev.onRetry 1 Err.cancelled ∈ (executeRequest
        (fun n => if n = 1 then Except.error Err.cancelled else Except.ok ⟨200, n⟩)
        [] [] ⟨some ⟨1, none, true⟩⟩).2 ∧
    Ev.backoff 1 ∈ (executeRequest
        (fun n => if n = 1 then Except.error Err.cancelled else Except.ok ⟨200, n⟩)
        [] [] ⟨some ⟨1, none, true⟩⟩).2 := by
  refine ⟨rfl, rfl, ?_, ?_⟩ <;> decide

/-- C2 as amended: a cancellation rejection of the awaited attempt is
caught by the retry handler like any other transport failure — when
attempts remain the engine computes a backoff, invokes `onRetry` with the
cancellation error, sleeps and starts the next attempt; cancellation is a
retryable outcome for this engine. -/
theorem cancellation_treated_as_retryable (c : ℕ) (hc : 1 ≤ c)
    (T : ℕ → Except Err Resp) (hT : T 1 = Except.error Err.cancelled) :
    Ev.backoff 1 ∈ (executeRequest T [] [] ⟨some ⟨c, none, true⟩⟩).2 ∧
    Ev.onRetry 1 Err.cancelled ∈ (executeRequest T [] [] ⟨some ⟨c, none, true⟩⟩).2 ∧
    Ev.slept 1 ∈ (executeRequest T [] [] ⟨some ⟨c, none, true⟩⟩).2 ∧
    Ev.attempt 2 ∈ (executeRequest T [] [] ⟨some ⟨c, none, true⟩⟩).2 := by
  obtain ⟨k, rfl⟩ : ∃ k, c = k + 1 := ⟨c - 1, by omega⟩
  rw [executeRequest_mk, retryLoop_succ, hT]
  have hle : ¬ (k + 1 + 1 ≤ 1) := by omega
  obtain ⟨tl, htl⟩ := retryLoop_attempt_head T [] ⟨k + 1, none, true⟩ (k + 1 + 1) k 2
    (some Err.cancelled)
  simp [hle, retryEvs, htl]

/-- C2 witness: a concrete cancelled first attempt with one retry. -/
theorem cancellation_treated_as_retryable_witness :
    Ev.backoff 1 ∈ (executeRequest
        (fun n => if n = 1 then Except.error Err.cancelled else Except.ok ⟨204, n⟩)
        [] [] ⟨some ⟨1, none, true⟩⟩).2 ∧
    Ev.onRetry 1 Err.cancelled ∈ (executeRequest
        (fun n => if n = 1 then Except.error Err.cancelled else Except.ok ⟨204, n⟩)
        [] [] ⟨some ⟨1, none, true⟩⟩).2 ∧
    Ev.slept 1 ∈ (executeRequest
        (fun n => if n = 1 then Except.error Err.cancelled else Except.ok ⟨204, n⟩)
        [] [] ⟨some ⟨1, none, true⟩⟩).2 ∧
    Ev.attempt 2 ∈ (executeRequest
        (fun n => if n = 1 then Except.error Err.cancelled else Except.ok ⟨204, n⟩)
        [] [] ⟨some ⟨1, none, true⟩⟩).2 :=
  cancellation_treated_as_retryable 1 (le_refl 1)
    (fun n => if n = 1 then Except.error Err.cancelled else Except.ok ⟨204, n⟩) rfl

/-- C4: the jitter actually applied by the exponential strategy. At
`attempt = 1`, `baseDelay = 1000`, `maxDelay = 30000` the result is exactly
`875 + 250 * rand`, confined to `[875, 1125)` for `rand ∈ [0, 1)` — an
offset of at most ±12.5% of the base value, so the claimed full ±25% range
is not attained (for instance the value 750 is impossible). The clamp part
of the claim does hold: for every strategy and every input the result lies
in `[0, maxDelay]` whenever `maxDelay ≥ 0`. -/
theorem exponential_jitter_bounds :
    (∀ r : ℚ, 0 ≤ r → r < 1 →
      calculateBackoff 1 BackoffStrategy.exponential 1000 30000 r = 875 + 250 * r ∧
      875 ≤ calculateBackoff 1 BackoffStrategy.exponential 1000 30000 r ∧
      calculateBackoff 1 BackoffStrategy.exponential 1000 30000 r < 1125 ∧
      calculateBackoff 1 BackoffStrategy.exponential 1000 30000 r ≠ 750) ∧
    (∀ (a : ℕ) (st : BackoffStrategy) (b m r : ℚ), 0 ≤ m →
      0 ≤ calculateBackoff a st b m r ∧ calculateBackoff a st b m r ≤ m) := by
  constructor
  · intro r h0 h1
    have key : calculateBackoff 1 BackoffStrategy.exponential 1000 30000 r
        = 875 + 250 * r := by
      simp only [calculateBackoff]
      norm_num [min_def, max_def]
      split_ifs <;> linarith
    refine ⟨key, by rw [key]; linarith, by rw [key]; linarith, ?_⟩
    rw [key]
    intro h
    linarith
  · intro a st b m r hm
    exact ⟨le_min (le_max_right _ _) hm, min_le_right _ _⟩

/-- C4 witness at `rand = 0` (and the clamp at a linear instance). -/
theorem exponential_jitter_bounds_witness :
    ((0 : ℚ) ≤ 0 ∧ (0 : ℚ) < 1 ∧
      calculateBackoff 1 BackoffStrategy.exponential 1000 30000 0 = 875 + 250 * 0 ∧
      875 ≤ calculateBackoff 1 BackoffStrategy.exponential 1000 30000 0 ∧
      calculateBackoff 1 BackoffStrategy.exponential 1000 30000 0 < 1125 ∧
      calculateBackoff 1 BackoffStrategy.exponential 1000 30000 0 ≠ 750) ∧
    ((0 : ℚ) ≤ 5 ∧
      0 ≤ calculateBackoff 3 BackoffStrategy.linear 7 5 0 ∧
      calculateBackoff 3 BackoffStrategy.linear 7 5 0 ≤ 5) := by
  have h1 := exponential_jitter_bounds.1 0 (by norm_num) (by norm_num)
  have h2 := exponential_jitter_bounds.2 3 BackoffStrategy.linear 7 5 0 (by norm_num)
  exact ⟨⟨by norm_num, by norm_num, h1.1, h1.2.1, h1.2.2.1, h1.2.2.2⟩,
    ⟨by norm_num, h2.1, h2.2⟩⟩

/-- The tokenizer state machine never pushes an empty token. -/
lemma tokenizeAux_ne_nil :
    ∀ (l : List Char) (q : Option Char) (esc : Bool) (cur : List Char),
      [] ∉ tokenizeAux q esc cur l := by
  intro l
  induction l with
  | nil =>
    intro q esc cur
    by_cases h : cur = [] <;> simp [tokenizeAux, h]
  | cons c rest ih =>
    intro q esc cur
    simp only [tokenizeAux]
    split
    · exact ih _ _ _
    · split
      · exact ih _ _ _
      · split
        · split
          · exact ih _ _ _
          · split
            · exact ih _ _ _
            · exact ih _ _ _
        · split
          · split
            · exact ih _ _ _
            · next hcur =>
              intro hmem
              rcases List.mem_cons.1 hmem with h | h
              · exact hcur h.symm
              · exact ih _ _ _ h
          · exact ih _ _ _

/-- C8: the tokenizer never emits empty tokens; it elides unescaped quote
characters while taking a quote of the other kind literally inside a quote,
takes a backslash-escaped character literally dropping the backslash, and
ends tokens only at unquoted spaces — in particular the `-H` fragment with
an embedded space splits into exactly two tokens, a single-quoted JSON
object with internal double quotes is one token, an escaped space does not
split, and an unquoted space does. -/
theorem tokenize_spec :
    (∀ (s t : String), t ∈ tokenize s → t ≠ "") ∧
    tokenize "-H \"Content-Type: application/json\""
        = ["-H", "Content-Type: application/json"] ∧
    tokenize "\x27\x7b\"name\":\"John\"\x7d\x27" = ["\x7b\"name\":\"John\"\x7d"] ∧
    tokenize "a\\ b" = ["a b"] ∧
    tokenize "ab cd" = ["ab", "cd"] := by
  refine ⟨?_, by decide, by decide, by decide, by decide⟩
  intro s t ht h0
  subst h0
  obtain ⟨l, hl, hmk⟩ := List.mem_map.1 ht
  have hdata : l = [] := congrArg String.data hmk
  exact tokenizeAux_ne_nil _ _ _ _ (hdata ▸ hl)

/-- C8 witness: a concrete token is non-empty, via the theorem. -/
theorem tokenize_spec_witness : "ab" ≠ "" :=
  tokenize_spec.1 "ab cd" "ab" (by decide)

/-- Frame property of the interceptor chain over the heap: writing through
one config reference leaves every other headers object untouched. -/
lemma runReqInterceptorsH_frame (fs : List (HeaderMap → HeaderMap))
    (c : HeapConfig) (r : ℕ) (hr : r ≠ c.headersRef) :
    ∀ σ : Store, (runReqInterceptorsH fs σ c).mem r = σ.mem r := by
  induction fs with
  | nil => intro σ; rfl
  | cons f fs ih =>
    intro σ
    have step : runReqInterceptorsH (f :: fs) σ c
        = runReqInterceptorsH fs (writeHeaders σ c.headersRef (f (σ.mem c.headersRef))) c :=
      rfl
    rw [step, ih]
    simp [writeHeaders, hr]

/-- C9: the interceptor phase of `executeRequest` never mutates the headers
object of the caller config. The clone points at a freshly allocated
reference distinct from the caller reference, the clone starts as a copy of
the caller headers, and after the whole request-interceptor chain has run —
interceptors mutating the headers they receive included — the heap still
holds the caller headers object unchanged. -/
theorem cloneConfig_protects_caller_headers (fs : List (HeaderMap → HeaderMap))
    (σ : Store) (caller : HeapConfig) (hv : caller.headersRef < σ.next) :
    (interceptPhaseH fs σ caller).1.mem caller.headersRef = σ.mem caller.headersRef ∧
    (interceptPhaseH fs σ caller).2.headersRef ≠ caller.headersRef ∧
    (cloneConfigH σ caller).1.mem (cloneConfigH σ caller).2.headersRef
        = σ.mem caller.headersRef := by
  have hne : caller.headersRef ≠ σ.next := by omega
  refine ⟨?_, fun h => hne h.symm, by simp [cloneConfigH, allocCopy]⟩
  have hframe := runReqInterceptorsH_frame fs ⟨σ.next⟩ caller.headersRef hne
    (cloneConfigH σ caller).1
  calc (interceptPhaseH fs σ caller).1.mem caller.headersRef
      = (cloneConfigH σ caller).1.mem caller.headersRef := hframe
    _ = σ.mem caller.headersRef := by simp [cloneConfigH, allocCopy, hne]

/-- C9 witness: one mutating interceptor over a one-object heap. -/
theorem cloneConfig_protects_caller_headers_witness :
    ((0 : ℕ) < 1) ∧
    ((interceptPhaseH [fun h => ("X-Trace", "1") :: h] ⟨fun _ => [], 1⟩ ⟨0⟩).1.mem 0
        = (fun _ => ([] : HeaderMap)) 0 ∧
      (interceptPhaseH [fun h => ("X-Trace", "1") :: h] ⟨fun _ => [], 1⟩ ⟨0⟩).2.headersRef ≠ 0 ∧
      (cloneConfigH ⟨fun _ => [], 1⟩ ⟨0⟩).1.mem
          (cloneConfigH ⟨fun _ => [], 1⟩ ⟨0⟩).2.headersRef = (fun _ => ([] : HeaderMap)) 0) :=
  ⟨Nat.zero_lt_one,
    cloneConfig_protects_caller_headers [fun h => ("X-Trace", "1") :: h]
      ⟨fun _ => [], 1⟩ ⟨0⟩ Nat.zero_lt_one⟩

/-- Invariant of the flag-mapping loop: in the absence of `-X`/`--request`
tokens the method can only be the initial GET or the promoted POST, and once
a body has been captured the method is POST. -/
lemma parseLoop_method_inv (res : CurlParseResult) (ts : List String) :
    (∀ x ∈ ts, ¬(x = "-X" ∨ x = "--request")) →
    ((res.method = "GET" ∨ res.method = "POST") ∧
      (res.body.isSome = true → res.method = "POST")) →
    (((parseLoop res ts).method = "GET" ∨ (parseLoop res ts).method = "POST") ∧
      ((parseLoop res ts).body.isSome = true → (parseLoop res ts).method = "POST")) := by
  induction res, ts using parseLoop.induct <;> intro hXR hinv <;>
    rw [parseLoop.eq_def] <;> (try simp_all [List.mem_cons])
  case case12 =>
    rename_i ih
    refine ih (Or.inr fun h1 h2 => ?_) fun h1 h2 => ?_ <;>
      rcases hinv.1 with h | h <;> first | exact absurd h h2 | exact h
  case case32 =>
    rename_i res tok rest htok hstart himp ih
    have hcond : ¬(res.url = "" ∧ isUrl tok = true) := fun hc => by simp [himp hc.1] at hc
    simp only [if_neg hcond]
    exact ih

/-- C3 counterexample: the command `curl -X GET -d x https://a` carries an
explicit `-X GET` together with a data flag, yet parses to method POST —
the explicit method does not win when it precedes the data flag, because
the promotion check only asks whether the method is still GET. -/
theorem explicit_get_before_data_cex :
    (parseCurlCommand "curl -X GET -d x https://a").method = "POST" ∧
    (parseCurlCommand "curl -X GET -d x https://a").body = some "x" ∧
    (parseCurlCommand "curl -X GET -d x https://a").method ≠ "GET" := by
  exact ⟨by decide, by decide, by decide⟩

/-- C3 as amended: with no `-X`/`--request` token anywhere, a command whose
parse captured a body (that is, a data flag acted with a value) always
yields method POST; an explicit `-X GET` wins only when it appears after
the data flag, while an explicit `-X GET` before the data flag is
overridden by the promotion and yields POST. -/
theorem method_promotion_order_dependent :
    (∀ s : String, "-X" ∉ cmdTokens s → "--request" ∉ cmdTokens s →
      (parseCurlCommand s).body.isSome = true → (parseCurlCommand s).method = "POST") ∧
    (parseCurlCommand "curl -d x -X GET https://a").method = "GET" ∧
    (parseCurlCommand "curl -X GET -d x https://a").method = "POST" := by
  refine ⟨?_, by decide, by decide⟩
  intro s hX hR hbody
  have hXR : ∀ x ∈ cmdTokens s, ¬(x = "-X" ∨ x = "--request") := by
    intro x hx
    rintro (rfl | rfl)
    exacts [hX hx, hR hx]
  have h := parseLoop_method_inv initParse (cmdTokens s) hXR (by simp [initParse])
  exact h.2 hbody

/-- C3 witness: a data flag with no explicit method yields POST. -/
theorem method_promotion_witness :
    "-X" ∉ cmdTokens "curl -d x https://a" ∧
    "--request" ∉ cmdTokens "curl -d x https://a" ∧
    (parseCurlCommand "curl -d x https://a").body.isSome = true ∧
    (parseCurlCommand "curl -d x https://a").method = "POST" :=
  ⟨by decide, by decide, by decide,
    method_promotion_order_dependent.1 "curl -d x https://a" (by decide) (by decide)
      (by decide)⟩

/-- C7 counterexample: for `-u alice:sec:ret` the parser stores password
`sec`, not `sec:ret` — the destructuring of `split` keeps only the first
two segments, so everything after the second colon is discarded rather
than kept in the password. -/
theorem auth_split_multicolon_cex :
    (parseCurlCommand "curl -u alice:sec:ret https://x").auth
        = some ⟨"alice", "sec"⟩ ∧
    (parseCurlCommand "curl -u alice:sec:ret https://x").auth
        ≠ some ⟨"alice", "sec:ret"⟩ := by
  exact ⟨by decide, by decide⟩

/-- C7 as amended: the `-u` value is split on every colon and only the
first two segments are used — the username is the text before the first
colon and the password the text between the first and second colon, any
later segments being discarded; the record is stored only when both
segments are non-empty, and a value without a colon (single segment)
leaves `auth` absent. -/
theorem auth_split_first_two_segments :
    (∀ (v : String) (u p : List Char) (rest : List (List Char)),
      splitCh ':' v.toList = u :: p :: rest → u ≠ [] → p ≠ [] →
      parseUser v = some ⟨String.mk u, String.mk p⟩) ∧
    (∀ (v : String) (u : List Char), splitCh ':' v.toList = [u] → parseUser v = none) ∧
    (parseCurlCommand "curl -u alice:secret https://x").auth
        = some ⟨"alice", "secret"⟩ ∧
    (parseCurlCommand "curl -u malformed https://x").auth = none ∧
    (parseCurlCommand "curl -u alice:sec:ret https://x").auth
        = some ⟨"alice", "sec"⟩ := by
  refine ⟨?_, ?_, by decide, by decide, by decide⟩
  · intro v u p rest h hu hp
    simp only [String.toList] at h
    simp [parseUser, h, hu, hp]
  · intro v u h
    simp only [String.toList] at h
    simp [parseUser, h]

/-- C7 witness: the characterization evaluated at `a:b:c`. -/
theorem auth_split_witness :
    parseUser "a:b:c" = some ⟨"a", "b"⟩ ∧ parseUser "abc" = none :=
  ⟨auth_split_first_two_segments.1 "a:b:c" [Char.ofNat 97] [Char.ofNat 98]
      [[Char.ofNat 99]] (by decide) (by decide) (by decide),
    auth_split_first_two_segments.2.1 "abc"
      [Char.ofNat 97, Char.ofNat 98, Char.ofNat 99] (by decide)⟩
